import Mathlib

/-!
Verification development for the `froww` repository's two-tier cache manager
(`services/cacheManager.ts`, class `EnhancedCacheManager`).

The TypeScript class is shallowly embedded as pure Lean functions over an
explicit state: the in-process memory tier (`memoryCache : Map<string,
CacheItem<any>>`) and the durable tier (`AsyncStorage`, a string-keyed store
of serialized JSON strings).  JavaScript values that flow through the cache
are modelled by a `Json` inductive (the cache only ever stores
JSON-serializable payloads; `JSON.stringify`/`JSON.parse` round-trip such
values, so the durable tier is modelled as holding either the parsed `Json`
value of the stored string or an `unparsable` blob on which `JSON.parse`
throws).  Timestamps (`Date.now()`) are integers in milliseconds, passed
explicitly to each operation.  Durable-tier I/O faults are injected through a
`Faults` record; a primitive whose fault flag is set behaves as a throwing
`AsyncStorage` call, and the embedding reproduces exactly the `try`/`catch`
structure of the source (inner catches swallow, outer catches produce the
documented fallback results, side effects performed before the throw stand).
-/

namespace Froww

/-- JSON values, the payloads the cache can store and the parse results of
durable-tier reads.  Numbers are modelled as integers (every number the cache
manager itself writes is an integer millisecond timestamp or TTL). -/
inductive Json where
  | null : Json
  | bool : Bool → Json
  | num : Int → Json
  | str : String → Json
  | arr : List Json → Json
  | obj : List (String × Json) → Json

/-- JavaScript property access `j.field` on a parsed JSON value: `some v` when
the field is present, `none` when the access yields `undefined` (absent field
or non-object receiver).  Access on `null` throws in JS; callers of `jget`
in this development only reach it for non-null receivers. -/
def jget (j : Json) (field : String) : Option Json :=
  match j with
  | Json.obj fields => (fields.find? (fun p => p.1 == field)).map (fun p => p.2)
  | _ => none

/-- List-level check that `p` occurs at the front of `l` (models the
character-by-character comparison underlying `String.startsWith`). -/
def isPrefList : List Char → List Char → Bool
  | [], _ => true
  | _ :: _, [] => false
  | p :: ps, c :: cs => p == c && isPrefList ps cs

/-- List-level substring containment. -/
def containsSub (pat : List Char) : List Char → Bool
  | [] => isPrefList pat []
  | c :: cs => isPrefList pat (c :: cs) || containsSub pat cs

/-- Models JavaScript `s.startsWith(pat)`. -/
def strStarts (s pat : String) : Bool := isPrefList pat.data s.data

/-- Models JavaScript `s.includes(pat)`. -/
def strIncludes (s pat : String) : Bool := containsSub pat.data s.data

/-- A value held by the durable tier (`AsyncStorage`).  `json j` models a
stored string on which `JSON.parse` succeeds and yields `j`; `unparsable len`
models a non-empty string of length `len` on which `JSON.parse` throws. -/
inductive StoredVal where
  | json : Json → StoredVal
  | unparsable : Nat → StoredVal

/-- The mutable state of the singleton cache manager: the memory tier
(`memoryCache`) and the durable tier (`AsyncStorage`), both as association
lists with unique keys maintained by the update helpers below.  Memory maps
the logical key to the cache-item object; the durable tier maps the prefixed
storage key to the serialized value. -/
structure CacheState where
  memory : List (String × Json)
  storage : List (String × StoredVal)

/-- The empty cache (fresh process, empty durable store). -/
def emptyState : CacheState := ⟨[], []⟩

/-- Source: `interface CacheConfig` plus the inline initializer of
`private config`. -/
structure CacheConfig where
  defaultTTL : Int
  maxSize : Int
  version : String

/-- Source: `config = { defaultTTL: 30, maxSize: 50, version: '1.0.0' }`. -/
def defaultConfig : CacheConfig := ⟨30, 50, "1.0.0"⟩

/-- Source: `private readonly CACHE_PREFIX = 'froww_cache_'`. -/
def CACHE_PREFIX_STR : String := "froww_cache_"

/-- Source: `private readonly METADATA_KEY = 'froww_cache_metadata'`. -/
def METADATA_KEY : String := "froww_cache_metadata"

/-- Source: `private readonly TTL_CONFIG = { ... }` (minutes). -/
structure TTLConfigT where
  quote : Int
  top_gainers_losers : Int
  intraday_chart : Int
  company_overview : Int
  daily_chart : Int
  company_profile : Int
  historical_data : Int

/-- The literal `TTL_CONFIG` object. -/
def TTL_CONFIG : TTLConfigT :=
  { quote := 2
    top_gainers_losers := 5
    intraday_chart := 5
    company_overview := 60
    daily_chart := 30
    company_profile := 24 * 60
    historical_data := 12 * 60 }

/-- Source: `private getTTLForKey(key)` — substring classification of the key,
first match wins, else `config.defaultTTL`. -/
def getTTLForKey (cfg : CacheConfig) (key : String) : Int :=
  if strIncludes key "quote" then TTL_CONFIG.quote
  else if strIncludes key "top_gainers_losers" then TTL_CONFIG.top_gainers_losers
  else if strIncludes key "intraday" then TTL_CONFIG.intraday_chart
  else if strIncludes key "overview" then TTL_CONFIG.company_overview
  else if strIncludes key "daily" then TTL_CONFIG.daily_chart
  else if strIncludes key "profile" then TTL_CONFIG.company_profile
  else if strIncludes key "historical" then TTL_CONFIG.historical_data
  else cfg.defaultTTL

/-- Source: `private isValidCacheItem(item)`.  The parsed item is an arbitrary
JS value; property access on `null` throws a `TypeError`, which the result
`none` models (callers translate it to the enclosing `catch`).  Otherwise the
result is `some` of the conjunction
`item.expiresAt > now && item.version === config.version && item.data !== null
&& item.data !== undefined`, where a missing or non-numeric `expiresAt`
compares false and a missing or non-string `version` is never strictly equal
to the configured version string. -/
def isValidCacheItem (cfg : CacheConfig) (now : Int) (item : Json) : Option Bool :=
  match item with
  | Json.null => none
  | _ => some (
      (match jget item "expiresAt" with
       | some (Json.num e) => decide (now < e)
       | _ => false) &&
      (match jget item "version" with
       | some (Json.str v) => v == cfg.version
       | _ => false) &&
      (match jget item "data" with
       | some Json.null => false
       | none => false
       | some _ => true))

/-- Injected durable-tier faults: a flag set means the corresponding
`AsyncStorage` primitive throws when invoked (on that key, for the keyed
primitives). -/
structure Faults where
  getItemFails : String → Bool
  setItemFails : String → Bool
  removeItemFails : String → Bool
  getAllKeysFails : Bool
  multiRemoveFails : Bool

/-- The fault-free durable tier. -/
def noFaults : Faults := ⟨fun _ => false, fun _ => false, fun _ => false, false, false⟩

/-- Insert-or-overwrite into an association-list map (models `Map.set` /
`AsyncStorage.setItem`). -/
def mapInsert {α : Type} (m : List (String × α)) (k : String) (v : α) :
    List (String × α) :=
  (k, v) :: m.filter (fun p => !(p.1 == k))

/-- Delete from an association-list map (models `Map.delete` /
`AsyncStorage.removeItem`). -/
def mapErase {α : Type} (m : List (String × α)) (k : String) : List (String × α) :=
  m.filter (fun p => !(p.1 == k))

section MapLemmas

variable {α : Type}

theorem lookup_filter_key (m : List (String × α)) (pred : String → Bool) (k : String) :
    List.lookup k (m.filter (fun p => pred p.1)) =
      if pred k then List.lookup k m else none := by
  induction m with
  | nil => simp
  | cons hd tl ih =>
    rcases hd with ⟨a, b⟩
    simp only [List.filter_cons]
    by_cases hp : pred a = true
    · simp only [hp, if_true]
      by_cases hk : (k == a) = true
      · have hka : k = a := eq_of_beq hk
        subst hka
        simp [List.lookup, hp]
      · simp only [List.lookup, hk, cond_false]
        exact ih
    · simp only [hp, if_false]
      by_cases hk : (k == a) = true
      · have hka : k = a := eq_of_beq hk
        subst hka
        simp only [List.lookup, beq_self_eq_true, cond_true]
        simpa [hp] using ih
      · simp only [List.lookup, hk, cond_false]
        exact ih

theorem lookup_mapInsert (m : List (String × α)) (k : String) (v : α) (k' : String) :
    List.lookup k' (mapInsert m k v) =
      if k' == k then some v else List.lookup k' m := by
  unfold mapInsert
  by_cases h : k' == k
  · simp [List.lookup, h]
  · simp only [List.lookup, h, cond_false, if_neg h]
    have := lookup_filter_key m (fun x => !(x == k)) k'
    simp only [h, Bool.not_false] at this
    simp [this]

theorem lookup_mapErase (m : List (String × α)) (k : String) (k' : String) :
    List.lookup k' (mapErase m k) =
      if k' == k then none else List.lookup k' m := by
  unfold mapErase
  have := lookup_filter_key m (fun x => !(x == k)) k'
  by_cases h : k' == k
  · simp only [h, Bool.not_true] at this
    simp [this, h]
  · simp only [h, Bool.not_false] at this
    simp [this, h]

theorem contains_iff_lookup_isSome (m : List (String × α)) (k : String) :
    (m.map (fun p => p.1)).contains k = (List.lookup k m).isSome := by
  induction m with
  | nil => simp
  | cons hd tl ih =>
    by_cases h : (k == hd.1) = true
    · simp [List.lookup, h, List.contains, List.elem]
    · simp only [List.map, List.lookup, h, cond_false]
      rw [← ih]
      simp [List.contains, List.elem, h]

end MapLemmas

/-- JavaScript `storageKey.replace(CACHE_PREFIX, '')`: under the
`startsWith(CACHE_PREFIX)` filter that guards every use in the source, the
first (leftmost) occurrence of the prefix is the one at position 0, so the
replacement strips the namespace prefix. -/
def logicalKey (sk : String) : String :=
  if strStarts sk CACHE_PREFIX_STR then ⟨sk.data.drop CACHE_PREFIX_STR.data.length⟩
  else sk

/-- The cache-item object built by `set`:
`{ data, timestamp: now, expiresAt, version: config.version }`. -/
def mkCacheItem (cfg : CacheConfig) (now expiresAt : Int) (data : Json) : Json :=
  Json.obj [("data", data), ("timestamp", Json.num now),
            ("expiresAt", Json.num expiresAt), ("version", Json.str cfg.version)]

/-- The per-key record written into the metadata object by
`updateCacheMetadata`: `{ lastUpdated: now, ttl, size }` where `size` is the
length of `JSON.stringify({ key })`, i.e. 10 plus the key length (for keys
with no characters needing JSON escaping). -/
def mdEntry (now : Int) (key : String) (ttl : Int) : Json :=
  Json.obj [("lastUpdated", Json.num now), ("ttl", Json.num ttl),
            ("size", Json.num (10 + (key.length : Int)))]

/-- Source: `private async updateCacheMetadata(key, ttl)`.  Reads the current
metadata object via `getCacheMetadata` (which swallows read/parse failures and
yields `{}`; a stored non-object parse result cannot hold the update, which
the empty-fields fallback models), sets `metadata[key]`, and writes it back.
Its own `catch` swallows a failing write, leaving the state unchanged. -/
def updateCacheMetadata (f : Faults) (now : Int) (s : CacheState)
    (key : String) (ttl : Int) : CacheState :=
  let oldFields : List (String × Json) :=
    if f.getItemFails METADATA_KEY then []
    else match List.lookup METADATA_KEY s.storage with
      | some (StoredVal.json (Json.obj fs)) => fs
      | _ => []
  let newMd := Json.obj (mapInsert oldFields key (mdEntry now key ttl))
  if f.setItemFails METADATA_KEY then s
  else { s with storage := mapInsert s.storage METADATA_KEY (StoredVal.json newMd) }

/-- Source: the line `const ttlMinutes = customTTL || this.getTTLForKey(key)`
of `set`.  Note that a *falsy* numeric override — the number 0 — falls through
to the classification table rather than being used. -/
def resolveTTL (cfg : CacheConfig) (key : String) (customTTL : Option Int) : Int :=
  match customTTL with
  | some t => if t == 0 then getTTLForKey cfg key else t
  | none => getTTLForKey cfg key

/-- Source: `async set<T>(key, data, customTTL?)`.  The memory write happens
first; if the durable `setItem` throws, the outer `catch` swallows the error
and the memory entry stands (and the metadata update is skipped). -/
def set (f : Faults) (cfg : CacheConfig) (now : Int) (s : CacheState)
    (key : String) (data : Json) (customTTL : Option Int) : CacheState :=
  let ttlMinutes : Int := resolveTTL cfg key customTTL
  let expiresAt := now + ttlMinutes * 60 * 1000
  let cacheItem := mkCacheItem cfg now expiresAt data
  let s1 := { s with memory := mapInsert s.memory key cacheItem }
  let storageKey := CACHE_PREFIX_STR ++ key
  if f.setItemFails storageKey then s1
  else
    let s2 := { s1 with storage := mapInsert s1.storage storageKey (StoredVal.json cacheItem) }
    updateCacheMetadata f now s2 key ttlMinutes

/-- Source: `async remove(key)`.  Memory delete first; a throwing durable
`removeItem` is swallowed by the `catch`, leaving the durable entry behind. -/
def remove (f : Faults) (s : CacheState) (key : String) : CacheState :=
  let s1 := { s with memory := mapErase s.memory key }
  if f.removeItemFails (CACHE_PREFIX_STR ++ key) then s1
  else { s1 with storage := mapErase s1.storage (CACHE_PREFIX_STR ++ key) }

/-- Source: `async get<T>(key)`.  Memory tier first; on a memory miss or an
invalid memory item, read the durable tier, promote a valid entry, evict an
invalid one via `remove`, and return `null` on miss.  Every throw inside the
body (a faulted `getItem`, `JSON.parse` on an unparsable string, the validity
check's property access on a parsed `null`) lands in the outer `catch`, which
returns `null` with whatever side effects already happened (none, in each of
those cases). -/
def get (f : Faults) (cfg : CacheConfig) (now : Int) (s : CacheState)
    (key : String) : CacheState × Json :=
  let storStep : CacheState × Json :=
    if f.getItemFails (CACHE_PREFIX_STR ++ key) then (s, Json.null)
    else match List.lookup (CACHE_PREFIX_STR ++ key) s.storage with
      | none => (s, Json.null)
      | some (StoredVal.unparsable _) => (s, Json.null)
      | some (StoredVal.json cacheItem) =>
        match isValidCacheItem cfg now cacheItem with
        | none => (s, Json.null)
        | some true =>
          ({ s with memory := mapInsert s.memory key cacheItem },
           (jget cacheItem "data").getD Json.null)
        | some false => (remove f s key, Json.null)
  match List.lookup key s.memory with
  | none => storStep
  | some memoryItem =>
    match isValidCacheItem cfg now memoryItem with
    | none => (s, Json.null)
    | some true => (s, (jget memoryItem "data").getD Json.null)
    | some false => storStep

/-- Source: `async clear()`.  Memory wiped first (synchronously); then the
prefixed durable keys are enumerated and batch-removed, then the metadata
record is removed; a throw at any point is swallowed with the earlier effects
standing. -/
def clear (f : Faults) (s : CacheState) : CacheState :=
  let s1 : CacheState := { s with memory := [] }
  if f.getAllKeysFails then s1
  else
    let cacheKeys := (s1.storage.map (fun p => p.1)).filter
      (fun k => strStarts k CACHE_PREFIX_STR)
    if cacheKeys.isEmpty then
      if f.removeItemFails METADATA_KEY then s1
      else { s1 with storage := mapErase s1.storage METADATA_KEY }
    else if f.multiRemoveFails then s1
    else
      let s2 : CacheState :=
        { s1 with storage := s1.storage.filter (fun p => !(cacheKeys.contains p.1)) }
      if f.removeItemFails METADATA_KEY then s2
      else { s2 with storage := mapErase s2.storage METADATA_KEY }

/-- The per-key body of `cleanExpired`'s sweep loop, deciding whether the
stored entry at `sk` gets queued for batch deletion: a faulted or unparsable
read (the inner `catch` pushes the key), a parsed `null` (the validity check
throws, landing in the same inner `catch`), or a parsed item that fails the
validity check. -/
def entryBad (f : Faults) (cfg : CacheConfig) (now : Int)
    (stor : List (String × StoredVal)) (sk : String) : Bool :=
  if f.getItemFails sk then true
  else match List.lookup sk stor with
    | none => false
    | some (StoredVal.unparsable _) => true
    | some (StoredVal.json item) =>
      match isValidCacheItem cfg now item with
      | none => true
      | some false => true
      | some true => false

/-- Whether the sweep loop also deletes the corresponding memory entry: only
the parsed-but-invalid branch runs `memoryCache.delete`; the inner `catch`
(faulted read, unparsable string, parsed `null`) skips it. -/
def entryEvictsMem (f : Faults) (cfg : CacheConfig) (now : Int)
    (stor : List (String × StoredVal)) (sk : String) : Bool :=
  if f.getItemFails sk then false
  else match List.lookup sk stor with
    | some (StoredVal.json item) =>
      match isValidCacheItem cfg now item with
      | some false => true
      | _ => false
    | _ => false

/-- Source: `async cleanExpired()`.  Enumerates the prefixed durable keys,
queues every bad entry (see `entryBad`) for batch deletion and deletes the
memory copy of every parsed-but-invalid one (see `entryEvictsMem`), then
batch-removes the queued keys; the loop's decisions read only the (unmutated
during the loop) durable tier, so it is transcribed as two filters. -/
def cleanExpired (f : Faults) (cfg : CacheConfig) (now : Int)
    (s : CacheState) : CacheState :=
  if f.getAllKeysFails then s
  else
    let cacheKeys := (s.storage.map (fun p => p.1)).filter
      (fun k => strStarts k CACHE_PREFIX_STR)
    let expiredKeys := cacheKeys.filter (entryBad f cfg now s.storage)
    let mem' := s.memory.filter (fun p =>
      !(cacheKeys.any (fun sk =>
        entryEvictsMem f cfg now s.storage sk && (logicalKey sk == p.1))))
    if expiredKeys.isEmpty then { s with memory := mem' }
    else if f.multiRemoveFails then { s with memory := mem' }
    else { memory := mem',
           storage := s.storage.filter (fun p => !(expiredKeys.contains p.1)) }

/-- Source: `async invalidatePattern(pattern)`.  The durable tier is filtered
by `includes(pattern)` on the *prefixed* storage key; the memory tier by
`includes(pattern)` on the logical key — and the memory sweep only runs when
at least one durable key matched.  A throwing `multiRemove` is swallowed with
the memory sweep skipped. -/
def invalidatePattern (f : Faults) (s : CacheState) (pat : String) : CacheState :=
  if f.getAllKeysFails then s
  else
    let matchingKeys := (s.storage.map (fun p => p.1)).filter
      (fun k => strStarts k CACHE_PREFIX_STR && strIncludes k pat)
    if matchingKeys.isEmpty then s
    else if f.multiRemoveFails then s
    else
      { memory := s.memory.filter (fun p => !(strIncludes p.1 pat)),
        storage := s.storage.filter (fun p => !(matchingKeys.contains p.1)) }

mutual

/-- Length of `JSON.stringify` output for a parsed value (no spaces; string
contents assumed free of characters needing JSON escaping; integer numbers
print in decimal).  Used only for the diagnostic byte total of `getStats`. -/
def serLen : Json → Nat
  | Json.null => 4
  | Json.bool true => 4
  | Json.bool false => 5
  | Json.num n => (toString n).length
  | Json.str s => s.length + 2
  | Json.arr [] => 2
  | Json.arr (x :: xs) => 1 + serLen x + serLenTailA xs
  | Json.obj [] => 2
  | Json.obj ((n, v) :: fs) => 1 + (n.length + 3) + serLen v + serLenTailO fs

/-- Remaining array items of `serLen`: each contributes a comma separator,
and the last contributes the closing bracket. -/
def serLenTailA : List Json → Nat
  | [] => 1
  | x :: xs => 1 + serLen x + serLenTailA xs

/-- Remaining object fields of `serLen`. -/
def serLenTailO : List (String × Json) → Nat
  | [] => 1
  | (n, v) :: fs => 1 + (n.length + 3) + serLen v + serLenTailO fs

end

/-- The record returned by `getStats`, with `totalSize` kept as the raw byte
count that the source's pure `formatBytes` arithmetic would render. -/
structure CacheStats where
  memoryEntries : Nat
  storageEntries : Nat
  totalSize : Nat
  oldestEntry : Option String
  newestEntry : Option String

/-- Source: `async getStats()`.  Enumerates the prefixed durable keys, sums
serialized lengths, and tracks the strictly smallest/largest `timestamp`
(a faulted read or parse failure is skipped by the inner `catch`; a missing or
non-numeric timestamp updates nothing since both strict comparisons are
false).  The outer `catch` returns the all-zero record. -/
def getStats (f : Faults) (now : Int) (s : CacheState) : CacheStats :=
  if f.getAllKeysFails then ⟨0, 0, 0, none, none⟩
  else
    let cacheKeys := (s.storage.map (fun p => p.1)).filter
      (fun k => strStarts k CACHE_PREFIX_STR)
    let step := fun (acc : Nat × Int × Int × Option String × Option String)
        (sk : String) =>
      let (tot, oldT, newT, oldK, newK) := acc
      if f.getItemFails sk then acc
      else match List.lookup sk s.storage with
        | none => acc
        | some (StoredVal.unparsable len) => (tot + len, oldT, newT, oldK, newK)
        | some (StoredVal.json j) =>
          let tot' := tot + serLen j
          match jget j "timestamp" with
          | some (Json.num t) =>
            let old' := if t < oldT then (t, some (logicalKey sk)) else (oldT, oldK)
            let new' := if newT < t then (t, some (logicalKey sk)) else (newT, newK)
            (tot', old'.1, new'.1, old'.2, new'.2)
          | _ => (tot', oldT, newT, oldK, newK)
    let r := cacheKeys.foldl step (0, now, 0, none, none)
    ⟨s.memory.length, cacheKeys.length, r.1, r.2.2.2.1, r.2.2.2.2⟩

/-! String-level helper lemmas about the namespace prefix. -/

theorem isPrefList_append (p r : List Char) : isPrefList p (p ++ r) = true := by
  induction p with
  | nil => rfl
  | cons c cs ih => simp [isPrefList, ih]

theorem isPrefList_drop (p : List Char) :
    ∀ l, isPrefList p l = true → l = p ++ l.drop p.length := by
  induction p with
  | nil => intro l _; simp
  | cons c cs ih =>
    intro l h
    cases l with
    | nil => simp [isPrefList] at h
    | cons a as =>
      simp only [isPrefList, Bool.and_eq_true, beq_iff_eq] at h
      obtain ⟨rfl, h2⟩ := h
      simpa using ih as h2

theorem strStarts_append (k : String) :
    strStarts (CACHE_PREFIX_STR ++ k) CACHE_PREFIX_STR = true := by
  unfold strStarts
  rw [String.data_append]
  exact isPrefList_append _ _

theorem logicalKey_append (k : String) : logicalKey (CACHE_PREFIX_STR ++ k) = k := by
  unfold logicalKey
  rw [strStarts_append]
  simp only [if_true]
  apply String.ext
  rw [String.data_append, List.drop_left]

theorem strStarts_eq_append (sk : String) (h : strStarts sk CACHE_PREFIX_STR = true) :
    sk = CACHE_PREFIX_STR ++ logicalKey sk := by
  unfold logicalKey
  rw [h]
  simp only [if_true]
  apply String.ext
  rw [String.data_append]
  exact isPrefList_drop _ _ h

theorem prefixed_key_inj (a b : String)
    (h : CACHE_PREFIX_STR ++ a = CACHE_PREFIX_STR ++ b) : a = b := by
  apply String.ext
  have := congrArg String.data h
  rw [String.data_append, String.data_append] at this
  exact List.append_cancel_left this

theorem metadata_key_eq : CACHE_PREFIX_STR ++ "metadata" = METADATA_KEY := rfl

theorem prefixed_eq_metadata_iff (k : String) :
    CACHE_PREFIX_STR ++ k = METADATA_KEY ↔ k = "metadata" := by
  constructor
  · intro h
    exact prefixed_key_inj k "metadata" (h.trans metadata_key_eq.symm)
  · intro h
    subst h
    rfl

/-! Helper lemmas about association-list key sets. -/

theorem mem_map_fst_iff_lookup {α : Type} (m : List (String × α)) (k : String) :
    k ∈ m.map (fun p => p.1) ↔ (List.lookup k m).isSome = true := by
  rw [← contains_iff_lookup_isSome]
  simp [List.contains_iff_exists_mem_beq, beq_iff_eq, eq_comm]

theorem contains_eq_mem (l : List String) (k : String) :
    l.contains k = true ↔ k ∈ l := by
  simp [List.contains_iff_exists_mem_beq, beq_iff_eq, eq_comm]

/-! Characterization lemmas for `set`. -/

/-- JavaScript truthiness of a cached payload as tested by
`item.data !== null && item.data !== undefined` once the field is present. -/
def dataTruthy : Json → Bool
  | Json.null => false
  | _ => true

theorem isValid_mkCacheItem (cfgW cfgR : CacheConfig) (now0 e now' : Int) (d : Json) :
    isValidCacheItem cfgR now' (mkCacheItem cfgW now0 e d) =
      some (decide (now' < e) && (cfgW.version == cfgR.version) && dataTruthy d) := by
  cases d <;> rfl

theorem set_memory_eq (f : Faults) (cfg : CacheConfig) (now : Int) (s : CacheState)
    (key : String) (d : Json) (ttlOpt : Option Int) :
    (set f cfg now s key d ttlOpt).memory =
      mapInsert s.memory key
        (mkCacheItem cfg now (now + resolveTTL cfg key ttlOpt * 60 * 1000) d) := by
  unfold set updateCacheMetadata
  by_cases hf : f.setItemFails (CACHE_PREFIX_STR ++ key) = true
  · simp [hf]
  · by_cases hm : f.setItemFails METADATA_KEY = true
    · simp [hf, hm]
    · simp [hf, hm]

theorem lookup_set_memory (f : Faults) (cfg : CacheConfig) (now : Int) (s : CacheState)
    (key : String) (d : Json) (ttlOpt : Option Int) (k' : String) :
    List.lookup k' (set f cfg now s key d ttlOpt).memory =
      if k' == key then
        some (mkCacheItem cfg now (now + resolveTTL cfg key ttlOpt * 60 * 1000) d)
      else List.lookup k' s.memory := by
  rw [set_memory_eq, lookup_mapInsert]

theorem noFaults_getItem (k : String) : noFaults.getItemFails k = false := rfl

theorem noFaults_setItem (k : String) : noFaults.setItemFails k = false := rfl

theorem noFaults_removeItem (k : String) : noFaults.removeItemFails k = false := rfl

theorem noFaults_getAllKeys : noFaults.getAllKeysFails = false := rfl

theorem noFaults_multiRemove : noFaults.multiRemoveFails = false := rfl

theorem set_storage_md (cfg : CacheConfig) (now : Int) (s : CacheState)
    (key : String) (d : Json) (ttlOpt : Option Int) :
    ∃ fs, List.lookup METADATA_KEY (set noFaults cfg now s key d ttlOpt).storage =
      some (StoredVal.json (Json.obj fs)) := by
  unfold set updateCacheMetadata
  simp only [noFaults_setItem, noFaults_getItem, Bool.false_eq_true, if_false]
  rw [lookup_mapInsert]
  simp only [beq_self_eq_true, if_true]
  exact ⟨_, rfl⟩

theorem set_storage_other (cfg : CacheConfig) (now : Int) (s : CacheState)
    (key : String) (d : Json) (ttlOpt : Option Int) (sk : String)
    (h1 : sk ≠ METADATA_KEY) (h2 : sk ≠ CACHE_PREFIX_STR ++ key) :
    List.lookup sk (set noFaults cfg now s key d ttlOpt).storage =
      List.lookup sk s.storage := by
  unfold set updateCacheMetadata
  simp only [noFaults_setItem, noFaults_getItem, Bool.false_eq_true, if_false]
  rw [lookup_mapInsert]
  rw [if_neg (by simp [h1])]
  rw [lookup_mapInsert]
  rw [if_neg (by simp [h2])]

theorem dataTruthy_true_iff (d : Json) : dataTruthy d = true ↔ d ≠ Json.null := by
  cases d <;> simp [dataTruthy]

theorem set_fields (cfg : CacheConfig) (now : Int) (s : CacheState) (key : String)
    (d : Json) (ttlOpt : Option Int) :
    ∃ gs,
      List.lookup (CACHE_PREFIX_STR ++ key) (set noFaults cfg now s key d ttlOpt).storage =
        some (StoredVal.json (Json.obj gs)) ∧
      jget (Json.obj gs) "data" = some d ∧
      jget (Json.obj gs) "timestamp" = some (Json.num now) ∧
      jget (Json.obj gs) "expiresAt" =
        some (Json.num (now + resolveTTL cfg key ttlOpt * 60 * 1000)) ∧
      jget (Json.obj gs) "version" = some (Json.str cfg.version) ∧
      ∀ (cfgR : CacheConfig) (nowR : Int),
        isValidCacheItem cfgR nowR (Json.obj gs) =
          some (decide (nowR < now + resolveTTL cfg key ttlOpt * 60 * 1000) &&
            (cfg.version == cfgR.version) && dataTruthy d) := by
  by_cases hk : key = "metadata"
  · subst hk
    refine ⟨_, rfl, ?_, ?_, ?_, ?_, ?_⟩
    · rfl
    · rfl
    · rfl
    · rfl
    · intro cfgR nowR
      cases d <;> rfl
  · unfold set updateCacheMetadata
    simp only [noFaults_setItem, noFaults_getItem, Bool.false_eq_true, if_false]
    rw [lookup_mapInsert]
    have hne : CACHE_PREFIX_STR ++ key ≠ METADATA_KEY := by
      intro h
      exact hk ((prefixed_eq_metadata_iff key).mp h)
    rw [if_neg (by simp [hne])]
    rw [lookup_mapInsert]
    simp only [beq_self_eq_true, if_true]
    refine ⟨_, rfl, ?_, ?_, ?_, ?_, ?_⟩
    · rfl
    · rfl
    · rfl
    · rfl
    · intro cfgR nowR
      cases d <;> rfl

/-! Characterization lemmas for `remove` and `get`. -/

theorem remove_memory_lookup (f : Faults) (s : CacheState) (key k' : String) :
    List.lookup k' (remove f s key).memory =
      if k' == key then none else List.lookup k' s.memory := by
  unfold remove
  by_cases hf : f.removeItemFails (CACHE_PREFIX_STR ++ key) = true
  · simp [hf, lookup_mapErase]
  · simp [hf, lookup_mapErase]

theorem remove_storage_lookup (s : CacheState) (key sk : String) :
    List.lookup sk (remove noFaults s key).storage =
      if sk == (CACHE_PREFIX_STR ++ key) then none else List.lookup sk s.storage := by
  unfold remove
  simp [noFaults_removeItem, lookup_mapErase]

/-- The condition under which `get` consults the durable tier: the memory
lookup missed or produced an invalid (non-throwing) item. -/
def MemMissOrInvalid (cfg : CacheConfig) (now : Int) (s : CacheState)
    (key : String) : Prop :=
  List.lookup key s.memory = none ∨
    ∃ m, List.lookup key s.memory = some m ∧ isValidCacheItem cfg now m = some false

theorem get_memHit (f : Faults) (cfg : CacheConfig) (now : Int) (s : CacheState)
    (key : String) (it : Json)
    (hm : List.lookup key s.memory = some it)
    (hv : isValidCacheItem cfg now it = some true) :
    get f cfg now s key = (s, (jget it "data").getD Json.null) := by
  unfold get
  rw [hm]
  simp [hv]

theorem get_fault (f : Faults) (cfg : CacheConfig) (now : Int) (s : CacheState)
    (key : String) (hmem : MemMissOrInvalid cfg now s key)
    (hf : f.getItemFails (CACHE_PREFIX_STR ++ key) = true) :
    get f cfg now s key = (s, Json.null) := by
  unfold get
  rcases hmem with h | ⟨m, hm, hv⟩
  · rw [h]; simp [hf]
  · rw [hm]; simp [hv, hf]

theorem get_missNone (f : Faults) (cfg : CacheConfig) (now : Int) (s : CacheState)
    (key : String) (hmem : MemMissOrInvalid cfg now s key)
    (hf : f.getItemFails (CACHE_PREFIX_STR ++ key) = false)
    (hs : List.lookup (CACHE_PREFIX_STR ++ key) s.storage = none) :
    get f cfg now s key = (s, Json.null) := by
  unfold get
  rcases hmem with h | ⟨m, hm, hv⟩
  · rw [h]; simp [hf, hs]
  · rw [hm]; simp [hv, hf, hs]

theorem get_unparsable (f : Faults) (cfg : CacheConfig) (now : Int) (s : CacheState)
    (key : String) (len : Nat) (hmem : MemMissOrInvalid cfg now s key)
    (hf : f.getItemFails (CACHE_PREFIX_STR ++ key) = false)
    (hs : List.lookup (CACHE_PREFIX_STR ++ key) s.storage =
      some (StoredVal.unparsable len)) :
    get f cfg now s key = (s, Json.null) := by
  unfold get
  rcases hmem with h | ⟨m, hm, hv⟩
  · rw [h]; simp [hf, hs]
  · rw [hm]; simp [hv, hf, hs]

theorem get_parsedNull (f : Faults) (cfg : CacheConfig) (now : Int) (s : CacheState)
    (key : String) (it : Json) (hmem : MemMissOrInvalid cfg now s key)
    (hf : f.getItemFails (CACHE_PREFIX_STR ++ key) = false)
    (hs : List.lookup (CACHE_PREFIX_STR ++ key) s.storage = some (StoredVal.json it))
    (hv : isValidCacheItem cfg now it = none) :
    get f cfg now s key = (s, Json.null) := by
  unfold get
  rcases hmem with h | ⟨m, hm, hv'⟩
  · rw [h]; simp [hf, hs, hv]
  · rw [hm]; simp [hv', hf, hs, hv]

theorem get_promote (f : Faults) (cfg : CacheConfig) (now : Int) (s : CacheState)
    (key : String) (it : Json) (hmem : MemMissOrInvalid cfg now s key)
    (hf : f.getItemFails (CACHE_PREFIX_STR ++ key) = false)
    (hs : List.lookup (CACHE_PREFIX_STR ++ key) s.storage = some (StoredVal.json it))
    (hv : isValidCacheItem cfg now it = some true) :
    get f cfg now s key =
      ({ s with memory := mapInsert s.memory key it },
       (jget it "data").getD Json.null) := by
  unfold get
  rcases hmem with h | ⟨m, hm, hv'⟩
  · rw [h]; simp [hf, hs, hv]
  · rw [hm]; simp [hv', hf, hs, hv]

theorem get_evict (f : Faults) (cfg : CacheConfig) (now : Int) (s : CacheState)
    (key : String) (it : Json) (hmem : MemMissOrInvalid cfg now s key)
    (hf : f.getItemFails (CACHE_PREFIX_STR ++ key) = false)
    (hs : List.lookup (CACHE_PREFIX_STR ++ key) s.storage = some (StoredVal.json it))
    (hv : isValidCacheItem cfg now it = some false) :
    get f cfg now s key = (remove f s key, Json.null) := by
  unfold get
  rcases hmem with h | ⟨m, hm, hv'⟩
  · rw [h]; simp [hf, hs, hv]
  · rw [hm]; simp [hv', hf, hs, hv]

theorem get_memNullThrow (f : Faults) (cfg : CacheConfig) (now : Int) (s : CacheState)
    (key : String) (it : Json)
    (hm : List.lookup key s.memory = some it)
    (hv : isValidCacheItem cfg now it = none) :
    get f cfg now s key = (s, Json.null) := by
  unfold get
  rw [hm]
  simp [hv]

/-! Characterization lemmas for `cleanExpired`. -/

/-- The prefixed durable keys enumerated by the sweeps
(`getAllKeys` filtered by `startsWith(CACHE_PREFIX)`). -/
def cacheKeysOf (s : CacheState) : List String :=
  (s.storage.map (fun p => p.1)).filter (fun k => strStarts k CACHE_PREFIX_STR)

theorem mem_cacheKeysOf (s : CacheState) (sk : String) :
    sk ∈ cacheKeysOf s ↔
      (List.lookup sk s.storage).isSome = true ∧ strStarts sk CACHE_PREFIX_STR = true := by
  unfold cacheKeysOf
  rw [List.mem_filter, mem_map_fst_iff_lookup]

theorem entryBad_isSome (f : Faults) (cfg : CacheConfig) (now : Int)
    (stor : List (String × StoredVal)) (sk : String)
    (hf : f.getItemFails sk = false)
    (h : entryBad f cfg now stor sk = true) :
    (List.lookup sk stor).isSome = true := by
  unfold entryBad at h
  rw [hf] at h
  simp only [Bool.false_eq_true, if_false] at h
  cases hl : List.lookup sk stor with
  | none => rw [hl] at h; simp at h
  | some v => rfl

theorem entryEvictsMem_shape (cfg : CacheConfig) (now : Int)
    (stor : List (String × StoredVal)) (sk : String)
    (h : entryEvictsMem noFaults cfg now stor sk = true) :
    ∃ item, List.lookup sk stor = some (StoredVal.json item) ∧
      isValidCacheItem cfg now item = some false := by
  unfold entryEvictsMem at h
  rw [noFaults_getItem] at h
  simp only [Bool.false_eq_true, if_false] at h
  cases hl : List.lookup sk stor with
  | none => rw [hl] at h; simp at h
  | some v =>
    rw [hl] at h
    cases v with
    | unparsable len => simp at h
    | json item =>
      refine ⟨item, rfl, ?_⟩
      cases hv : isValidCacheItem cfg now item with
      | none => simp [hv] at h
      | some b =>
        cases b with
        | true => simp [hv] at h
        | false => rfl

theorem cleanExpired_memory_eq (cfg : CacheConfig) (now : Int) (s : CacheState) :
    (cleanExpired noFaults cfg now s).memory =
      s.memory.filter (fun p =>
        !((cacheKeysOf s).any (fun sk =>
          entryEvictsMem noFaults cfg now s.storage sk && (logicalKey sk == p.1)))) := by
  unfold cleanExpired cacheKeysOf
  simp only [noFaults_getAllKeys, noFaults_multiRemove, Bool.false_eq_true, if_false]
  split
  · rfl
  · rfl

theorem any_evicts_iff (cfg : CacheConfig) (now : Int) (s : CacheState) (k : String) :
    (cacheKeysOf s).any (fun sk =>
        entryEvictsMem noFaults cfg now s.storage sk && (logicalKey sk == k)) =
      entryEvictsMem noFaults cfg now s.storage (CACHE_PREFIX_STR ++ k) := by
  rw [Bool.eq_iff_iff, List.any_eq_true]
  constructor
  · rintro ⟨sk, hmem, hp⟩
    rw [Bool.and_eq_true] at hp
    obtain ⟨hev, hlog⟩ := hp
    rw [mem_cacheKeysOf] at hmem
    have hsk : sk = CACHE_PREFIX_STR ++ k := by
      have h1 := strStarts_eq_append sk hmem.2
      rw [eq_of_beq hlog] at h1
      exact h1
    rw [← hsk]
    exact hev
  · intro hev
    refine ⟨CACHE_PREFIX_STR ++ k, ?_, ?_⟩
    · rw [mem_cacheKeysOf]
      refine ⟨?_, strStarts_append k⟩
      obtain ⟨item, hl, _⟩ := entryEvictsMem_shape cfg now s.storage _ hev
      rw [hl]; rfl
    · rw [Bool.and_eq_true]
      exact ⟨hev, by rw [logicalKey_append]; exact beq_self_eq_true k⟩

theorem cleanExpired_memory_char (cfg : CacheConfig) (now : Int) (s : CacheState)
    (k : String) :
    List.lookup k (cleanExpired noFaults cfg now s).memory =
      if entryEvictsMem noFaults cfg now s.storage (CACHE_PREFIX_STR ++ k) then none
      else List.lookup k s.memory := by
  rw [cleanExpired_memory_eq]
  have := lookup_filter_key s.memory
    (fun x => !((cacheKeysOf s).any (fun sk =>
      entryEvictsMem noFaults cfg now s.storage sk && (logicalKey sk == x)))) k
  rw [this, any_evicts_iff]
  by_cases h : entryEvictsMem noFaults cfg now s.storage (CACHE_PREFIX_STR ++ k) = true
  · simp [h]
  · simp only [Bool.not_eq_true] at h
    simp [h]

theorem cleanExpired_storage_char (cfg : CacheConfig) (now : Int) (s : CacheState)
    (sk : String) :
    List.lookup sk (cleanExpired noFaults cfg now s).storage =
      if strStarts sk CACHE_PREFIX_STR && entryBad noFaults cfg now s.storage sk then none
      else List.lookup sk s.storage := by
  unfold cleanExpired
  simp only [noFaults_getAllKeys, noFaults_multiRemove, Bool.false_eq_true, if_false]
  have hmemS : ∀ x, x ∈ ((s.storage.map (fun p => p.1)).filter
      (fun k => strStarts k CACHE_PREFIX_STR)).filter
        (entryBad noFaults cfg now s.storage) ↔
      (List.lookup x s.storage).isSome = true ∧ strStarts x CACHE_PREFIX_STR = true ∧
      entryBad noFaults cfg now s.storage x = true := by
    intro x
    rw [List.mem_filter]
    have := mem_cacheKeysOf s x
    unfold cacheKeysOf at this
    rw [this]
    tauto
  split
  · rename_i hE
    rw [List.isEmpty_iff] at hE
    by_cases hc : (strStarts sk CACHE_PREFIX_STR && entryBad noFaults cfg now s.storage sk) = true
    · rw [Bool.and_eq_true] at hc
      have hsome := entryBad_isSome noFaults cfg now s.storage sk (noFaults_getItem sk) hc.2
      have : sk ∈ ([] : List String) := by
        rw [← hE]
        exact (hmemS sk).mpr ⟨hsome, hc.1, hc.2⟩
      simp at this
    · simp only [Bool.not_eq_true] at hc
      simp [hc]
  · rename_i hE
    rw [lookup_filter_key s.storage
      (fun x => !(((s.storage.map (fun p => p.1)).filter
        (fun k => strStarts k CACHE_PREFIX_STR)).filter
          (entryBad noFaults cfg now s.storage)).contains x) sk]
    by_cases hc : (strStarts sk CACHE_PREFIX_STR && entryBad noFaults cfg now s.storage sk) = true
    · have hc' := hc
      rw [Bool.and_eq_true] at hc'
      have hsome := entryBad_isSome noFaults cfg now s.storage sk (noFaults_getItem sk) hc'.2
      have hmem : (((s.storage.map (fun p => p.1)).filter
          (fun k => strStarts k CACHE_PREFIX_STR)).filter
            (entryBad noFaults cfg now s.storage)).contains sk = true := by
        rw [contains_eq_mem]
        exact (hmemS sk).mpr ⟨hsome, hc'.1, hc'.2⟩
      rw [hmem]
      rw [if_neg (by simp)]
      rw [if_pos hc]
    · have hnmem : (((s.storage.map (fun p => p.1)).filter
          (fun k => strStarts k CACHE_PREFIX_STR)).filter
            (entryBad noFaults cfg now s.storage)).contains sk = false := by
        rw [Bool.eq_false_iff]
        intro hcon
        rw [contains_eq_mem] at hcon
        obtain ⟨_, h1, h2⟩ := (hmemS sk).mp hcon
        exact hc (by rw [Bool.and_eq_true]; exact ⟨h1, h2⟩)
      rw [hnmem]
      rw [if_pos (by simp)]
      rw [if_neg hc]

/-! Characterization lemmas for `invalidatePattern`. -/

theorem invalidatePattern_storage_char (s : CacheState) (pat sk : String) :
    List.lookup sk (invalidatePattern noFaults s pat).storage =
      if strStarts sk CACHE_PREFIX_STR && strIncludes sk pat then none
      else List.lookup sk s.storage := by
  unfold invalidatePattern
  simp only [noFaults_getAllKeys, noFaults_multiRemove, Bool.false_eq_true, if_false]
  have hmemS : ∀ x, x ∈ (s.storage.map (fun p => p.1)).filter
      (fun k => strStarts k CACHE_PREFIX_STR && strIncludes k pat) ↔
      (List.lookup x s.storage).isSome = true ∧
        (strStarts x CACHE_PREFIX_STR && strIncludes x pat) = true := by
    intro x
    rw [List.mem_filter, mem_map_fst_iff_lookup]
  split
  · rename_i hE
    rw [List.isEmpty_iff] at hE
    by_cases hc : (strStarts sk CACHE_PREFIX_STR && strIncludes sk pat) = true
    · rw [if_pos hc]
      cases hl : List.lookup sk s.storage with
      | none => rfl
      | some v =>
        exfalso
        have hm : sk ∈ ([] : List String) := by
          rw [← hE]
          exact (hmemS sk).mpr ⟨by rw [hl]; rfl, hc⟩
        simp at hm
    · rw [if_neg hc]
  · rename_i hE
    rw [lookup_filter_key s.storage
      (fun x => !((s.storage.map (fun p => p.1)).filter
        (fun k => strStarts k CACHE_PREFIX_STR && strIncludes k pat)).contains x) sk]
    by_cases hc : (strStarts sk CACHE_PREFIX_STR && strIncludes sk pat) = true
    · rw [if_pos hc]
      cases hl : List.lookup sk s.storage with
      | none =>
        split <;> rfl
      | some v =>
        have hmem : ((s.storage.map (fun p => p.1)).filter
            (fun k => strStarts k CACHE_PREFIX_STR && strIncludes k pat)).contains sk
              = true := by
          rw [contains_eq_mem]
          exact (hmemS sk).mpr ⟨by rw [hl]; rfl, hc⟩
        rw [hmem]
        rw [if_neg (by simp)]
    · rw [if_neg hc]
      have hnmem : ((s.storage.map (fun p => p.1)).filter
          (fun k => strStarts k CACHE_PREFIX_STR && strIncludes k pat)).contains sk
            = false := by
        rw [Bool.eq_false_iff]
        intro hcon
        rw [contains_eq_mem] at hcon
        exact hc ((hmemS sk).mp hcon).2
      rw [hnmem]
      rw [if_pos (by simp)]

theorem invalidatePattern_memory_char (s : CacheState) (pat k : String) :
    List.lookup k (invalidatePattern noFaults s pat).memory =
      if ((s.storage.map (fun p => p.1)).any
            (fun sk => strStarts sk CACHE_PREFIX_STR && strIncludes sk pat))
          && strIncludes k pat then none
      else List.lookup k s.memory := by
  unfold invalidatePattern
  simp only [noFaults_getAllKeys, noFaults_multiRemove, Bool.false_eq_true, if_false]
  split
  · rename_i hE
    rw [List.isEmpty_iff] at hE
    have hany : (s.storage.map (fun p => p.1)).any
        (fun sk => strStarts sk CACHE_PREFIX_STR && strIncludes sk pat) = false := by
      rw [Bool.eq_false_iff]
      intro h
      rw [List.any_eq_true] at h
      obtain ⟨x, hx, hpx⟩ := h
      have hm : x ∈ ([] : List String) := by
        rw [← hE]
        exact List.mem_filter.mpr ⟨hx, hpx⟩
      simp at hm
    rw [hany]
    simp
  · rename_i hE
    have hne : (s.storage.map (fun p => p.1)).filter
        (fun k => strStarts k CACHE_PREFIX_STR && strIncludes k pat) ≠ [] := by
      intro h
      rw [← List.isEmpty_iff] at h
      exact hE h
    have hany : (s.storage.map (fun p => p.1)).any
        (fun sk => strStarts sk CACHE_PREFIX_STR && strIncludes sk pat) = true := by
      obtain ⟨x, hx⟩ := List.exists_mem_of_ne_nil _ hne
      rw [List.mem_filter] at hx
      rw [List.any_eq_true]
      exact ⟨x, hx.1, hx.2⟩
    rw [lookup_filter_key s.memory (fun x => !(strIncludes x pat)) k, hany]
    by_cases hk : strIncludes k pat = true
    · rw [hk]
      simp
    · rw [Bool.not_eq_true] at hk
      rw [hk]
      simp

/-! The tier-consistency invariant and its preservation. -/

/-- Every memory entry is a non-null item whose prefixed durable key holds a
parseable, non-null stored value.  This is the precise relationship between
the tiers that fault-free operation maintains (with a side condition on
`invalidatePattern`, see `ReachableSafe`), and it is what makes `get`'s lazy
eviction able to clear both tiers. -/
def MemBacked (s : CacheState) : Prop :=
  ∀ k m, List.lookup k s.memory = some m →
    m ≠ Json.null ∧ ∃ j, List.lookup (CACHE_PREFIX_STR ++ k) s.storage =
      some (StoredVal.json j) ∧ j ≠ Json.null

theorem memBacked_empty : MemBacked emptyState := by
  intro k m h
  simp [emptyState, List.lookup] at h

theorem isValid_none_iff (cfg : CacheConfig) (now : Int) (j : Json) :
    isValidCacheItem cfg now j = none ↔ j = Json.null := by
  cases j <;> simp [isValidCacheItem]

theorem memBacked_set (cfg : CacheConfig) (now : Int) (s : CacheState)
    (key : String) (d : Json) (ttlOpt : Option Int) (hs : MemBacked s) :
    MemBacked (set noFaults cfg now s key d ttlOpt) := by
  intro k m hm
  rw [lookup_set_memory] at hm
  by_cases hk : (k == key) = true
  · rw [if_pos hk] at hm
    injection hm with hm'
    subst hm'
    refine ⟨by simp [mkCacheItem], ?_⟩
    have hkey : k = key := eq_of_beq hk
    subst hkey
    obtain ⟨gs, hg, _, _, _, _⟩ := set_fields cfg now s k d ttlOpt
    exact ⟨Json.obj gs, hg, fun h => Json.noConfusion h⟩
  · rw [if_neg hk] at hm
    obtain ⟨hmn, j, hj, hjn⟩ := hs k m hm
    refine ⟨hmn, ?_⟩
    by_cases hmd : CACHE_PREFIX_STR ++ k = METADATA_KEY
    · obtain ⟨fs, hfs⟩ := set_storage_md cfg now s key d ttlOpt
      rw [hmd]
      exact ⟨Json.obj fs, hfs, fun h => Json.noConfusion h⟩
    · have hpk : CACHE_PREFIX_STR ++ k ≠ CACHE_PREFIX_STR ++ key := by
        intro h
        have := prefixed_key_inj _ _ h
        subst this
        exact hk (beq_self_eq_true k)
      rw [set_storage_other cfg now s key d ttlOpt _ hmd hpk]
      exact ⟨j, hj, hjn⟩

theorem memBacked_remove (s : CacheState) (key : String) (hs : MemBacked s) :
    MemBacked (remove noFaults s key) := by
  intro k m hm
  rw [remove_memory_lookup] at hm
  by_cases hk : (k == key) = true
  · rw [if_pos hk] at hm
    simp at hm
  · rw [if_neg hk] at hm
    obtain ⟨hmn, j, hj, hjn⟩ := hs k m hm
    refine ⟨hmn, j, ?_, hjn⟩
    rw [remove_storage_lookup]
    rw [if_neg ?hne]
    · exact hj
    case hne =>
      simp only [beq_iff_eq]
      intro h
      have := prefixed_key_inj _ _ h
      subst this
      exact hk (beq_self_eq_true k)

theorem memBacked_get_aux (cfg : CacheConfig) (now : Int) (s : CacheState)
    (key : String) (hs : MemBacked s) (hmm : MemMissOrInvalid cfg now s key) :
    MemBacked (get noFaults cfg now s key).1 := by
  cases hstor : List.lookup (CACHE_PREFIX_STR ++ key) s.storage with
  | none =>
    rw [get_missNone noFaults cfg now s key hmm (noFaults_getItem _) hstor]
    exact hs
  | some v =>
    cases v with
    | unparsable len =>
      rw [get_unparsable noFaults cfg now s key len hmm (noFaults_getItem _) hstor]
      exact hs
    | json it2 =>
      cases hv2 : isValidCacheItem cfg now it2 with
      | none =>
        rw [get_parsedNull noFaults cfg now s key it2 hmm (noFaults_getItem _) hstor hv2]
        exact hs
      | some b2 =>
        cases b2 with
        | true =>
          rw [get_promote noFaults cfg now s key it2 hmm (noFaults_getItem _) hstor hv2]
          intro k m hm
          have hm' : List.lookup k (mapInsert s.memory key it2) = some m := hm
          rw [lookup_mapInsert] at hm'
          by_cases hk : (k == key) = true
          · rw [if_pos hk] at hm'
            injection hm' with hm2
            subst hm2
            have hit2 : it2 ≠ Json.null := by
              intro h
              rw [h] at hv2
              rw [(isValid_none_iff cfg now Json.null).mpr rfl] at hv2
              cases hv2
            refine ⟨hit2, it2, ?_, hit2⟩
            have hkey : k = key := eq_of_beq hk
            subst hkey
            exact hstor
          · rw [if_neg hk] at hm'
            exact hs k m hm'
        | false =>
          rw [get_evict noFaults cfg now s key it2 hmm (noFaults_getItem _) hstor hv2]
          exact memBacked_remove s key hs

theorem memBacked_get (cfg : CacheConfig) (now : Int) (s : CacheState)
    (key : String) (hs : MemBacked s) :
    MemBacked (get noFaults cfg now s key).1 := by
  cases hmem : List.lookup key s.memory with
  | none => exact memBacked_get_aux cfg now s key hs (Or.inl hmem)
  | some it =>
    cases hv : isValidCacheItem cfg now it with
    | none =>
      rw [get_memNullThrow noFaults cfg now s key it hmem hv]
      exact hs
    | some b =>
      cases b with
      | true =>
        rw [get_memHit noFaults cfg now s key it hmem hv]
        exact hs
      | false => exact memBacked_get_aux cfg now s key hs (Or.inr ⟨it, hmem, hv⟩)

theorem clear_memory_eq (f : Faults) (s : CacheState) : (clear f s).memory = [] := by
  unfold clear
  split
  · rfl
  · repeat' split
    all_goals simp [apply_ite CacheState.memory]

theorem memBacked_clear (f : Faults) (s : CacheState) : MemBacked (clear f s) := by
  intro k m hm
  rw [clear_memory_eq] at hm
  simp [List.lookup] at hm

theorem entryEvictsMem_of (cfg : CacheConfig) (now : Int)
    (stor : List (String × StoredVal)) (sk : String) (j : Json)
    (hj : List.lookup sk stor = some (StoredVal.json j))
    (hvj : isValidCacheItem cfg now j = some false) :
    entryEvictsMem noFaults cfg now stor sk = true := by
  unfold entryEvictsMem
  rw [noFaults_getItem]
  simp only [Bool.false_eq_true, if_false]
  rw [hj]
  simp [hvj]

theorem memBacked_cleanExpired (cfg : CacheConfig) (now : Int) (s : CacheState)
    (hs : MemBacked s) : MemBacked (cleanExpired noFaults cfg now s) := by
  intro k m hm
  rw [cleanExpired_memory_char] at hm
  by_cases hev : entryEvictsMem noFaults cfg now s.storage (CACHE_PREFIX_STR ++ k) = true
  · rw [if_pos hev] at hm
    cases hm
  · rw [if_neg hev] at hm
    obtain ⟨hmn, j, hj, hjn⟩ := hs k m hm
    refine ⟨hmn, j, ?_, hjn⟩
    rw [cleanExpired_storage_char]
    have hb : entryBad noFaults cfg now s.storage (CACHE_PREFIX_STR ++ k) = false := by
      cases hvj : isValidCacheItem cfg now j with
      | none => exact absurd ((isValid_none_iff cfg now j).mp hvj) hjn
      | some b =>
        cases b with
        | false => exact absurd (entryEvictsMem_of cfg now s.storage _ j hj hvj) hev
        | true =>
          unfold entryBad
          rw [noFaults_getItem]
          simp only [Bool.false_eq_true, if_false]
          rw [hj]
          simp [hvj]
    rw [hb]
    rw [if_neg (by simp)]
    exact hj

theorem memBacked_invalidatePattern (s : CacheState) (pat : String) (hs : MemBacked s)
    (hsafe : ∀ k, (List.lookup k s.memory).isSome = true →
      strIncludes (CACHE_PREFIX_STR ++ k) pat = true → strIncludes k pat = true) :
    MemBacked (invalidatePattern noFaults s pat) := by
  intro k m hm
  rw [invalidatePattern_memory_char] at hm
  by_cases hc : (((s.storage.map (fun p => p.1)).any
      (fun sk => strStarts sk CACHE_PREFIX_STR && strIncludes sk pat))
        && strIncludes k pat) = true
  · rw [if_pos hc] at hm
    cases hm
  · rw [if_neg hc] at hm
    obtain ⟨hmn, j, hj, hjn⟩ := hs k m hm
    refine ⟨hmn, j, ?_, hjn⟩
    rw [invalidatePattern_storage_char]
    by_cases hik : strIncludes (CACHE_PREFIX_STR ++ k) pat = true
    · exfalso
      have hksome : (List.lookup k s.memory).isSome = true := by rw [hm]; rfl
      have hkp : strIncludes k pat = true := hsafe k hksome hik
      have hany : (s.storage.map (fun p => p.1)).any
          (fun sk => strStarts sk CACHE_PREFIX_STR && strIncludes sk pat) = true := by
        rw [List.any_eq_true]
        refine ⟨CACHE_PREFIX_STR ++ k, ?_, ?_⟩
        · rw [mem_map_fst_iff_lookup, hj]
          rfl
        · rw [Bool.and_eq_true]
          exact ⟨strStarts_append k, hik⟩
      exact hc (by rw [Bool.and_eq_true]; exact ⟨hany, hkp⟩)
    · rw [if_neg ?hcond]
      · exact hj
      case hcond =>
        rw [Bool.and_eq_true]
        intro hand
        exact hik hand.2

/-- States reachable from the empty cache by fault-free operation sequences in
which every `invalidatePattern` call's pattern, whenever it occurs in the
prefixed durable key of a live memory entry, also occurs in the logical key
itself (this excludes patterns overlapping the `froww_cache_` namespace
prefix). -/
inductive ReachableSafe (cfg : CacheConfig) : CacheState → Prop where
  | empty : ReachableSafe cfg emptyState
  | stepGet (s : CacheState) (now : Int) (key : String) :
      ReachableSafe cfg s → ReachableSafe cfg (get noFaults cfg now s key).1
  | stepSet (s : CacheState) (now : Int) (key : String) (d : Json)
      (ttlOpt : Option Int) :
      ReachableSafe cfg s → ReachableSafe cfg (set noFaults cfg now s key d ttlOpt)
  | stepRemove (s : CacheState) (key : String) :
      ReachableSafe cfg s → ReachableSafe cfg (remove noFaults s key)
  | stepClear (s : CacheState) :
      ReachableSafe cfg s → ReachableSafe cfg (clear noFaults s)
  | stepCleanExpired (s : CacheState) (now : Int) :
      ReachableSafe cfg s → ReachableSafe cfg (cleanExpired noFaults cfg now s)
  | stepInvalidate (s : CacheState) (pat : String) :
      ReachableSafe cfg s →
      (∀ k, (List.lookup k s.memory).isSome = true →
        strIncludes (CACHE_PREFIX_STR ++ k) pat = true → strIncludes k pat = true) →
      ReachableSafe cfg (invalidatePattern noFaults s pat)

theorem reachableSafe_memBacked (cfg : CacheConfig) (s : CacheState)
    (h : ReachableSafe cfg s) : MemBacked s := by
  induction h with
  | empty => exact memBacked_empty
  | stepGet s now key _ ih => exact memBacked_get cfg now s key ih
  | stepSet s now key d ttlOpt _ ih => exact memBacked_set cfg now s key d ttlOpt ih
  | stepRemove s key _ ih => exact memBacked_remove s key ih
  | stepClear s _ _ => exact memBacked_clear noFaults s
  | stepCleanExpired s now _ ih => exact memBacked_cleanExpired cfg now s ih
  | stepInvalidate s pat _ hsafe ih => exact memBacked_invalidatePattern s pat ih hsafe

/-! Claim theorems. -/

/-- C2 (counterexample): the claim says the effective TTL is
`ttlOverrideMinutes` *whenever it is provided*, but the source computes
`customTTL || this.getTTLForKey(key)`, so the provided override 0 is falsy and
falls through to the classification table: `set("quote_AAPL", 1, 0)` at time 0
produces an entry with `expiresAt - createdAt = 120000` ms (the tabled quote
TTL) instead of the `0 * 60000 = 0` ms the claim requires. -/
theorem set_zero_ttl_override_cex :
    List.lookup "quote_AAPL"
        (set noFaults defaultConfig 0 emptyState "quote_AAPL" (Json.num 1)
          (some 0)).memory =
      some (Json.obj [("data", Json.num 1), ("timestamp", Json.num 0),
        ("expiresAt", Json.num 120000), ("version", Json.str "1.0.0")]) ∧
    ¬((120000 : Int) - 0 = 0 * 60000) := by
  constructor
  · rfl
  · decide

/-- C2 (amended): for every `set(key, data, ttlOverrideMinutes?)` call whose
override, if provided, is nonzero (a zero override is falsy in the source's
`customTTL || …` resolution and falls through to the table), the effective TTL
is the override when provided, else the first matching substring row of the
classification table (quote 2, top_gainers_losers 5, intraday 5, overview 60,
daily 30, profile 1440, historical 720), else the default TTL (30 under the
shipped config) — and the stored entry has `timestamp = now` and
`expiresAt = now + TTL minutes × 60000`, in both tiers. -/
theorem set_ttl_resolution (cfg : CacheConfig) (now : Int) (s : CacheState)
    (key : String) (d : Json) (ttlOpt : Option Int) (h : ttlOpt ≠ some 0) :
    List.lookup key (set noFaults cfg now s key d ttlOpt).memory =
      some (mkCacheItem cfg now (now + resolveTTL cfg key ttlOpt * 60 * 1000) d) ∧
    jget (mkCacheItem cfg now (now + resolveTTL cfg key ttlOpt * 60 * 1000) d)
      "timestamp" = some (Json.num now) ∧
    jget (mkCacheItem cfg now (now + resolveTTL cfg key ttlOpt * 60 * 1000) d)
      "expiresAt" = some (Json.num (now + resolveTTL cfg key ttlOpt * 60 * 1000)) ∧
    (∃ gs, List.lookup (CACHE_PREFIX_STR ++ key)
        (set noFaults cfg now s key d ttlOpt).storage =
          some (StoredVal.json (Json.obj gs)) ∧
      jget (Json.obj gs) "timestamp" = some (Json.num now) ∧
      jget (Json.obj gs) "expiresAt" =
        some (Json.num (now + resolveTTL cfg key ttlOpt * 60 * 1000))) ∧
    resolveTTL cfg key ttlOpt = ttlOpt.getD (getTTLForKey cfg key) ∧
    getTTLForKey cfg "quote_AAPL" = 2 ∧
    getTTLForKey cfg "top_gainers_losers" = 5 ∧
    getTTLForKey cfg "timeseries_intraday_AAPL_5min" = 5 ∧
    getTTLForKey cfg "overview_AAPL" = 60 ∧
    getTTLForKey cfg "timeseries_daily_AAPL" = 30 ∧
    getTTLForKey cfg "profile_AAPL" = 1440 ∧
    getTTLForKey cfg "historical_AAPL" = 720 ∧
    getTTLForKey cfg "chart_AAPL_1D" = cfg.defaultTTL ∧
    defaultConfig.defaultTTL = 30 := by
  obtain ⟨gs, hgs, _, hts, hexp, _, _⟩ := set_fields cfg now s key d ttlOpt
  refine ⟨?_, rfl, rfl, ⟨gs, hgs, hts, hexp⟩, ?_, rfl, rfl, rfl, rfl, rfl, rfl, rfl,
    rfl, rfl⟩
  · rw [lookup_set_memory]
    simp
  · cases ttlOpt with
    | none => rfl
    | some t =>
      have ht : ¬(t == 0) = true := by
        simp only [beq_iff_eq]
        intro h2
        exact h (by rw [h2])
      simp [resolveTTL, ht]

/-- C2 (witness): the amended TTL theorem applied at the concrete call
`set("quote_AAPL", 7)` with no override at time 0. -/
theorem set_ttl_resolution_witness :
    List.lookup "quote_AAPL"
        (set noFaults defaultConfig 0 emptyState "quote_AAPL" (Json.num 7)
          none).memory =
      some (mkCacheItem defaultConfig 0
        (0 + resolveTTL defaultConfig "quote_AAPL" none * 60 * 1000) (Json.num 7)) :=
  (set_ttl_resolution defaultConfig 0 emptyState "quote_AAPL" (Json.num 7) none
    (by simp)).1

/-- C3: round-trip fidelity and expiry enforcement — after
`set(k, v)` (no override) at time `now` under any starting state, a `get(k)`
at any `now'` before the entry's `expiresAt` returns `v` unchanged, and a
`get(k)` at any `now' ≥ expiresAt` returns absent (`null`), even though the
entry was never explicitly removed. -/
theorem set_get_roundTrip (cfg : CacheConfig) (s : CacheState) (key : String)
    (v : Json) (now now' : Int) :
    (now' < now + getTTLForKey cfg key * 60 * 1000 →
      (get noFaults cfg now' (set noFaults cfg now s key v none) key).2 = v) ∧
    (now + getTTLForKey cfg key * 60 * 1000 ≤ now' →
      (get noFaults cfg now' (set noFaults cfg now s key v none) key).2 =
        Json.null) := by
  have hres : resolveTTL cfg key none = getTTLForKey cfg key := rfl
  set s' := set noFaults cfg now s key v none with hs'
  have hmem : List.lookup key s'.memory =
      some (mkCacheItem cfg now (now + getTTLForKey cfg key * 60 * 1000) v) := by
    rw [hs', lookup_set_memory, hres]
    simp
  obtain ⟨gs, hgs, _, _, _, _, hval⟩ := set_fields cfg now s key v none
  simp only [hres] at hval
  have hvalmem : ∀ nowR : Int, isValidCacheItem cfg nowR
      (mkCacheItem cfg now (now + getTTLForKey cfg key * 60 * 1000) v) =
      some (decide (nowR < now + getTTLForKey cfg key * 60 * 1000) &&
        (cfg.version == cfg.version) && dataTruthy v) := fun nowR =>
    isValid_mkCacheItem cfg cfg now (now + getTTLForKey cfg key * 60 * 1000) nowR v
  constructor
  · intro h1
    by_cases hv : v = Json.null
    · subst hv
      have hmv : isValidCacheItem cfg now' (mkCacheItem cfg now
          (now + getTTLForKey cfg key * 60 * 1000) Json.null) = some false := by
        rw [hvalmem now']
        simp [dataTruthy]
      have hsv : isValidCacheItem cfg now' (Json.obj gs) = some false := by
        rw [hval cfg now']
        simp [dataTruthy]
      rw [get_evict noFaults cfg now' s' key (Json.obj gs)
        (Or.inr ⟨_, hmem, hmv⟩) (noFaults_getItem _) hgs hsv]
    · have hmv : isValidCacheItem cfg now' (mkCacheItem cfg now
          (now + getTTLForKey cfg key * 60 * 1000) v) = some true := by
        rw [hvalmem now']
        simp [h1, (dataTruthy_true_iff v).mpr hv]
      rw [get_memHit noFaults cfg now' s' key _ hmem hmv]
      rfl
  · intro h2
    have hlt : ¬(now' < now + getTTLForKey cfg key * 60 * 1000) := not_lt.mpr h2
    have hmv : isValidCacheItem cfg now' (mkCacheItem cfg now
        (now + getTTLForKey cfg key * 60 * 1000) v) = some false := by
      rw [hvalmem now']
      simp [hlt]
    have hsv : isValidCacheItem cfg now' (Json.obj gs) = some false := by
      rw [hval cfg now']
      simp [hlt]
    rw [get_evict noFaults cfg now' s' key (Json.obj gs)
      (Or.inr ⟨_, hmem, hmv⟩) (noFaults_getItem _) hgs hsv]

/-- C3 (witness): the round-trip theorem at the cold-start scenario — value
`{price-like payload} = 5` cached under `"quote_TSLA"` at time 0 is returned
by an immediate get and absent after a 3-minute (180000 ms) clock advance. -/
theorem set_get_roundTrip_witness :
    (get noFaults defaultConfig 1000
        (set noFaults defaultConfig 0 emptyState "quote_TSLA" (Json.num 5) none)
        "quote_TSLA").2 = Json.num 5 ∧
    (get noFaults defaultConfig 180000
        (set noFaults defaultConfig 0 emptyState "quote_TSLA" (Json.num 5) none)
        "quote_TSLA").2 = Json.null :=
  ⟨(set_get_roundTrip defaultConfig emptyState "quote_TSLA" (Json.num 5) 0
      1000).1 (by decide),
   (set_get_roundTrip defaultConfig emptyState "quote_TSLA" (Json.num 5) 0
      180000).2 (by decide)⟩

/-- C5: an entry written while the configured schema version is `"1.0.0"` is
treated as absent by a `get` performed under version `"1.0.1"`, even when the
clock is still before the entry's `expiresAt` and the payload is non-null, and
the mismatched entry is lazily evicted from both tiers by that `get`. -/
theorem version_change_invalidates (cfg1 cfg2 : CacheConfig) (now now' : Int)
    (s : CacheState) (key : String) (d : Json)
    (h1 : cfg1.version = "1.0.0") (h2 : cfg2.version = "1.0.1")
    (_hexp : now' < now + resolveTTL cfg1 key none * 60 * 1000)
    (_hd : d ≠ Json.null) :
    (get noFaults cfg2 now' (set noFaults cfg1 now s key d none) key).2 =
      Json.null ∧
    List.lookup key
      ((get noFaults cfg2 now' (set noFaults cfg1 now s key d none) key).1).memory =
        none ∧
    List.lookup (CACHE_PREFIX_STR ++ key)
      ((get noFaults cfg2 now' (set noFaults cfg1 now s key d none) key).1).storage =
        none := by
  set s' := set noFaults cfg1 now s key d none with hs'
  have hver : (cfg1.version == cfg2.version) = false := by
    rw [h1, h2]
    decide
  have hmem : List.lookup key s'.memory =
      some (mkCacheItem cfg1 now (now + resolveTTL cfg1 key none * 60 * 1000) d) := by
    rw [hs', lookup_set_memory]
    simp
  have hmv : isValidCacheItem cfg2 now' (mkCacheItem cfg1 now
      (now + resolveTTL cfg1 key none * 60 * 1000) d) = some false := by
    rw [isValid_mkCacheItem]
    rw [hver]
    simp
  obtain ⟨gs, hgs, _, _, _, _, hval⟩ := set_fields cfg1 now s key d none
  have hsv : isValidCacheItem cfg2 now' (Json.obj gs) = some false := by
    rw [hval cfg2 now', hver]
    simp
  rw [get_evict noFaults cfg2 now' s' key (Json.obj gs)
    (Or.inr ⟨_, hmem, hmv⟩) (noFaults_getItem _) hgs hsv]
  refine ⟨rfl, ?_, ?_⟩
  · rw [remove_memory_lookup]
    simp
  · rw [remove_storage_lookup]
    simp

/-- C5 (witness): the version-invalidation theorem at a concrete write under
`"1.0.0"` read back one second later under `"1.0.1"`. -/
theorem version_change_invalidates_witness :
    (get noFaults ⟨30, 50, "1.0.1"⟩ 1000
        (set noFaults defaultConfig 0 emptyState "quote_AAPL" (Json.num 3) none)
        "quote_AAPL").2 = Json.null :=
  (version_change_invalidates defaultConfig ⟨30, 50, "1.0.1"⟩ 0 1000 emptyState
    "quote_AAPL" (Json.num 3) rfl rfl (by decide) (by simp)).1

/-- C6: tier promotion — if the memory tier has no entry for a key while the
durable tier holds a still-valid entry for it (the state after a process
restart), `get` returns the stored data and copies the entry back into the
memory tier, and a second `get` at the same time is a memory hit returning the
same data with no further state change. -/
theorem tier_promotion (cfg : CacheConfig) (now : Int) (s : CacheState)
    (key : String) (it : Json)
    (hmem : List.lookup key s.memory = none)
    (hstor : List.lookup (CACHE_PREFIX_STR ++ key) s.storage =
      some (StoredVal.json it))
    (hval : isValidCacheItem cfg now it = some true) :
    get noFaults cfg now s key =
      ({ s with memory := mapInsert s.memory key it },
        (jget it "data").getD Json.null) ∧
    get noFaults cfg now { s with memory := mapInsert s.memory key it } key =
      ({ s with memory := mapInsert s.memory key it },
        (jget it "data").getD Json.null) := by
  constructor
  · exact get_promote noFaults cfg now s key it (Or.inl hmem)
      (noFaults_getItem _) hstor hval
  · apply get_memHit
    · rw [lookup_mapInsert]
      simp
    · exact hval

/-- C6 (witness): promotion applied at a concrete durable-only state. -/
theorem tier_promotion_witness :
    (get noFaults defaultConfig 1000
      ⟨[], [("froww_cache_quote_AAPL",
        StoredVal.json (mkCacheItem defaultConfig 0 120000 (Json.num 9)))]⟩
      "quote_AAPL").2 = Json.num 9 := by
  have h := (tier_promotion defaultConfig 1000
    ⟨[], [("froww_cache_quote_AAPL",
      StoredVal.json (mkCacheItem defaultConfig 0 120000 (Json.num 9)))]⟩
    "quote_AAPL" (mkCacheItem defaultConfig 0 120000 (Json.num 9))
    rfl rfl (by rw [isValid_mkCacheItem]; rfl)).1
  rw [h]
  rfl

/-- C7 (counterexample): the claim says `invalidatePattern` leaves every key
not containing the pattern untouched, but the durable-tier match runs on the
*prefixed* storage key: the pattern `"froww"` does not occur in the logical
key `"quote_AAPL"`, yet `invalidatePattern("froww")` deletes that key's
durable entry (its storage key `froww_cache_quote_AAPL` contains the
pattern). -/
theorem invalidatePattern_prefix_overlap_cex :
    strIncludes "quote_AAPL" "froww" = false ∧
    List.lookup "froww_cache_quote_AAPL"
      (invalidatePattern noFaults
        (set noFaults defaultConfig 0 emptyState "quote_AAPL" (Json.num 1) none)
        "froww").storage = none := by
  exact ⟨rfl, rfl⟩

/-- C7 (amended): `invalidatePattern(pattern)` removes from the durable tier
exactly the entries whose *prefixed* storage key contains the pattern, and
from the memory tier exactly the logical keys containing the pattern —
provided at least one durable key matched, otherwise the memory sweep is
skipped; all other entries are untouched.  In particular the claim's scenario
holds: after caching `chart_AAPL_1D`, `chart_AAPL_1W` and `quote_AAPL`,
`invalidatePattern("chart_AAPL")` leaves `quote_AAPL` retrievable and both
chart entries absent from both tiers. -/
theorem invalidatePattern_behavior :
    (∀ (s : CacheState) (pat sk : String),
      List.lookup sk (invalidatePattern noFaults s pat).storage =
        if strStarts sk CACHE_PREFIX_STR && strIncludes sk pat then none
        else List.lookup sk s.storage) ∧
    (∀ (s : CacheState) (pat k : String),
      List.lookup k (invalidatePattern noFaults s pat).memory =
        if ((s.storage.map (fun p => p.1)).any
              (fun sk => strStarts sk CACHE_PREFIX_STR && strIncludes sk pat))
            && strIncludes k pat then none
        else List.lookup k s.memory) ∧
    (let s3 := set noFaults defaultConfig 0
        (set noFaults defaultConfig 0
          (set noFaults defaultConfig 0 emptyState "chart_AAPL_1D" (Json.num 1) none)
          "chart_AAPL_1W" (Json.num 2) none)
        "quote_AAPL" (Json.num 3) none
     let s4 := invalidatePattern noFaults s3 "chart_AAPL"
     (get noFaults defaultConfig 1000 s4 "quote_AAPL").2 = Json.num 3 ∧
     List.lookup "chart_AAPL_1D" s4.memory = none ∧
     List.lookup "chart_AAPL_1W" s4.memory = none ∧
     List.lookup "froww_cache_chart_AAPL_1D" s4.storage = none ∧
     List.lookup "froww_cache_chart_AAPL_1W" s4.storage = none ∧
     (get noFaults defaultConfig 1000 s4 "chart_AAPL_1D").2 = Json.null ∧
     (get noFaults defaultConfig 1000 s4 "chart_AAPL_1W").2 = Json.null) :=
  ⟨invalidatePattern_storage_char, invalidatePattern_memory_char,
   rfl, rfl, rfl, rfl, rfl, rfl, rfl⟩

/-- C8 (counterexample): the claim says every invalid *or unparsable* swept
entry also has its key dropped from the memory tier if present, but the
source's `memoryCache.delete` runs only in the parsed-but-invalid branch: when
`JSON.parse` throws, the inner `catch` queues the storage key without touching
memory.  Concretely, with a memory entry for `k` and an unparsable durable
blob under `froww_cache_k`, `cleanExpired` deletes the blob but leaves the
memory entry. -/
theorem cleanExpired_unparsable_memory_cex :
    List.lookup "froww_cache_k"
      (cleanExpired noFaults defaultConfig 0
        ⟨[("k", Json.obj [("data", Json.num 1)])],
         [("froww_cache_k", StoredVal.unparsable 5)]⟩).storage = none ∧
    List.lookup "k"
      (cleanExpired noFaults defaultConfig 0
        ⟨[("k", Json.obj [("data", Json.num 1)])],
         [("froww_cache_k", StoredVal.unparsable 5)]⟩).memory =
      some (Json.obj [("data", Json.num 1)]) := by
  exact ⟨rfl, rfl⟩

/-- C8 (amended): `cleanExpired()` removes from durable storage exactly the
prefixed entries that are invalid or unparsable, dropping the corresponding
memory key only for entries that parse to an invalid (non-null) item — an
unparsable or null-parsing entry keeps its memory copy, if any — and leaves
every valid entry unchanged in both tiers.  The three-entry example holds:
with `quote_A` (expired at the sweep time), `overview_B` and `profile_C`
cached, the sweep removes exactly the expired entry and the other two stay
retrievable with unchanged data. -/
theorem cleanExpired_behavior :
    (∀ (cfg : CacheConfig) (now : Int) (s : CacheState) (sk : String),
      List.lookup sk (cleanExpired noFaults cfg now s).storage =
        if strStarts sk CACHE_PREFIX_STR && entryBad noFaults cfg now s.storage sk
        then none else List.lookup sk s.storage) ∧
    (∀ (cfg : CacheConfig) (now : Int) (s : CacheState) (k : String),
      List.lookup k (cleanExpired noFaults cfg now s).memory =
        if entryEvictsMem noFaults cfg now s.storage (CACHE_PREFIX_STR ++ k)
        then none else List.lookup k s.memory) ∧
    (let s3 := set noFaults defaultConfig 0
        (set noFaults defaultConfig 0
          (set noFaults defaultConfig 0 emptyState "quote_A" (Json.num 1) none)
          "overview_B" (Json.num 2) none)
        "profile_C" (Json.num 3) none
     let s4 := cleanExpired noFaults defaultConfig 300000 s3
     List.lookup "froww_cache_quote_A" s4.storage = none ∧
     List.lookup "quote_A" s4.memory = none ∧
     (get noFaults defaultConfig 300000 s4 "overview_B").2 = Json.num 2 ∧
     (get noFaults defaultConfig 300000 s4 "profile_C").2 = Json.num 3 ∧
     (get noFaults defaultConfig 300000 s4 "quote_A").2 = Json.null) :=
  ⟨cleanExpired_storage_char, cleanExpired_memory_char,
   rfl, rfl, rfl, rfl, rfl⟩

/-- C9 (counterexample): the claim says memory is a subset of durable storage
in every fault-free reachable state, but `invalidatePattern` filters the
durable tier by the *prefixed* key and the memory tier by the logical key:
after `set("quote_AAPL", 1)`, `invalidatePattern("froww")` deletes the durable
entry (storage key `froww_cache_quote_AAPL` contains `"froww"`) while the
memory entry (logical key without `"froww"`) survives — memory is no longer a
subset of durable storage. -/
theorem memory_subset_durable_cex :
    (List.lookup "quote_AAPL"
      (invalidatePattern noFaults
        (set noFaults defaultConfig 0 emptyState "quote_AAPL" (Json.num 1) none)
        "froww").memory).isSome = true ∧
    List.lookup "froww_cache_quote_AAPL"
      (invalidatePattern noFaults
        (set noFaults defaultConfig 0 emptyState "quote_AAPL" (Json.num 1) none)
        "froww").storage = none := by
  exact ⟨rfl, rfl⟩

/-- C9 (amended): in every state reachable from the empty cache by fault-free
get/set/remove/clear/cleanExpired/invalidatePattern sequences in which no
`invalidatePattern` call's pattern matches a live memory entry's prefixed
durable key without matching the logical key itself (ruling out patterns
overlapping the `froww_cache_` namespace prefix), the logical keys present in
the memory tier are a subset of those present in the durable tier. -/
theorem memory_subset_durable (cfg : CacheConfig) (s : CacheState)
    (h : ReachableSafe cfg s) :
    ∀ k, (List.lookup k s.memory).isSome = true →
      (List.lookup (CACHE_PREFIX_STR ++ k) s.storage).isSome = true := by
  intro k hk
  cases hm : List.lookup k s.memory with
  | none => rw [hm] at hk; cases hk
  | some m =>
    obtain ⟨_, j, hj, _⟩ := reachableSafe_memBacked cfg s h k m hm
    rw [hj]
    rfl

/-- C9 (witness): the subset invariant applied to the reachable state after a
single `set("quote_AAPL", 1)` from the empty cache. -/
theorem memory_subset_durable_witness :
    (List.lookup "froww_cache_quote_AAPL"
      (set noFaults defaultConfig 0 emptyState "quote_AAPL" (Json.num 1)
        none).storage).isSome = true :=
  memory_subset_durable defaultConfig
    (set noFaults defaultConfig 0 emptyState "quote_AAPL" (Json.num 1) none)
    (ReachableSafe.stepSet emptyState 0 "quote_AAPL" (Json.num 1) none
      ReachableSafe.empty)
    "quote_AAPL" rfl

/-- The wildcard arm of `isValidCacheItem` spelled out for an object item
(pure definitional unfolding). -/
theorem isValid_obj (cfg : CacheConfig) (now : Int) (fs : List (String × Json)) :
    isValidCacheItem cfg now (Json.obj fs) = some (
      (match jget (Json.obj fs) "expiresAt" with
       | some (Json.num e) => decide (now < e)
       | _ => false) &&
      (match jget (Json.obj fs) "version" with
       | some (Json.str v) => v == cfg.version
       | _ => false) &&
      (match jget (Json.obj fs) "data" with
       | some Json.null => false
       | none => false
       | some _ => true)) := rfl

/-- A metadata-shaped object — every field value itself an object, as
`updateCacheMetadata` writes — never passes the entry-validity check: its
`expiresAt` field is missing or a non-number, so the first conjunct is
false. -/
theorem isValid_metadataShape (cfg : CacheConfig) (now : Int)
    (fs : List (String × Json))
    (hfs : ∀ p ∈ fs, ∃ gs, p.2 = Json.obj gs) :
    isValidCacheItem cfg now (Json.obj fs) = some false := by
  rw [isValid_obj]
  have hexp : (match jget (Json.obj fs) "expiresAt" with
      | some (Json.num e) => decide (now < e)
      | _ => false) = false := by
    unfold jget
    cases hf : fs.find? (fun p => p.1 == "expiresAt") with
    | none => simp [hf]
    | some p =>
      obtain ⟨gs, hgs⟩ := hfs p (List.mem_of_find?_eq_some hf)
      simp [hf, hgs]
  rw [hexp]
  simp

/-- C10: the metadata record's key `froww_cache_metadata` begins with the
cache namespace prefix `froww_cache_`, so `cleanExpired()` enumerates it; it
parses to an object with no (numeric) `expiresAt`, which never satisfies the
entry-validity check, so every sweep deletes the metadata record whenever it
exists — regardless of whether any cache entry is expired. -/
theorem cleanExpired_deletes_metadata (cfg : CacheConfig) (now : Int)
    (s : CacheState) (fs : List (String × Json))
    (hmd : List.lookup METADATA_KEY s.storage = some (StoredVal.json (Json.obj fs)))
    (hfs : ∀ p ∈ fs, ∃ gs, p.2 = Json.obj gs) :
    strStarts METADATA_KEY CACHE_PREFIX_STR = true ∧
    isValidCacheItem cfg now (Json.obj fs) = some false ∧
    List.lookup METADATA_KEY (cleanExpired noFaults cfg now s).storage = none := by
  have hval := isValid_metadataShape cfg now fs hfs
  refine ⟨by decide, hval, ?_⟩
  have hbad : entryBad noFaults cfg now s.storage METADATA_KEY = true := by
    unfold entryBad
    rw [noFaults_getItem]
    simp only [Bool.false_eq_true, if_false]
    rw [hmd]
    simp [hval]
  rw [cleanExpired_storage_char]
  rw [if_pos (by rw [hbad]; decide)]

/-- C10 (witness): the sweep deletes the metadata record written by a single
`set("quote_AAPL", 1)`, at a time when the lone cache entry is still valid
(no entry at all is expired). -/
theorem cleanExpired_deletes_metadata_witness :
    List.lookup METADATA_KEY
      (cleanExpired noFaults defaultConfig 1000
        (set noFaults defaultConfig 0 emptyState "quote_AAPL" (Json.num 1)
          none)).storage = none :=
  (cleanExpired_deletes_metadata defaultConfig 1000
    (set noFaults defaultConfig 0 emptyState "quote_AAPL" (Json.num 1) none)
    [("quote_AAPL", mdEntry 0 "quote_AAPL" 2)]
    rfl
    (by
      intro p hp
      simp only [List.mem_singleton] at hp
      subst hp
      exact ⟨_, rfl⟩)).2.2

/-- Shared case analysis for the durable-tier phase of `get`: when the memory
tier missed or held an invalid item, a non-null `get` result can only come
from a valid parsed durable entry. -/
theorem get_serves_aux (f : Faults) (cfg : CacheConfig) (now : Int)
    (s : CacheState) (key : String) (hmm : MemMissOrInvalid cfg now s key)
    (hne : (get f cfg now s key).2 ≠ Json.null) :
    ∃ item, isValidCacheItem cfg now item = some true ∧
      (get f cfg now s key).2 = (jget item "data").getD Json.null := by
  cases hf : f.getItemFails (CACHE_PREFIX_STR ++ key) with
  | true =>
    rw [get_fault f cfg now s key hmm hf] at hne
    exact absurd rfl hne
  | false =>
    cases hstor : List.lookup (CACHE_PREFIX_STR ++ key) s.storage with
    | none =>
      rw [get_missNone f cfg now s key hmm hf hstor] at hne
      exact absurd rfl hne
    | some v =>
      cases v with
      | unparsable len =>
        rw [get_unparsable f cfg now s key len hmm hf hstor] at hne
        exact absurd rfl hne
      | json it =>
        cases hv : isValidCacheItem cfg now it with
        | none =>
          rw [get_parsedNull f cfg now s key it hmm hf hstor hv] at hne
          exact absurd rfl hne
        | some b =>
          cases b with
          | true =>
            rw [get_promote f cfg now s key it hmm hf hstor hv]
            exact ⟨it, hv, rfl⟩
          | false =>
            rw [get_evict f cfg now s key it hmm hf hstor hv] at hne
            exact absurd rfl hne

/-- C1 (counterexample): the claim says every invalid entry is removed from
both tiers by the next access at the latest, but an invalid memory entry with
no backing durable entry survives `get` untouched: `set("quote_AAPL", 1)`
followed by the prefix-overlapping `invalidatePattern("froww")` leaves a
memory-only entry; at time 130000 it is expired (invalid), yet `get` — finding
no durable data to trigger the eviction path — returns `null` and leaves the
invalid entry in memory. -/
theorem get_lazy_eviction_cex :
    isValidCacheItem defaultConfig 130000
      (Json.obj [("data", Json.num 1), ("timestamp", Json.num 0),
        ("expiresAt", Json.num 120000), ("version", Json.str "1.0.0")]) =
      some false ∧
    List.lookup "quote_AAPL"
      (invalidatePattern noFaults
        (set noFaults defaultConfig 0 emptyState "quote_AAPL" (Json.num 1) none)
        "froww").memory =
      some (Json.obj [("data", Json.num 1), ("timestamp", Json.num 0),
        ("expiresAt", Json.num 120000), ("version", Json.str "1.0.0")]) ∧
    (get noFaults defaultConfig 130000
      (invalidatePattern noFaults
        (set noFaults defaultConfig 0 emptyState "quote_AAPL" (Json.num 1) none)
        "froww")
      "quote_AAPL").2 = Json.null ∧
    List.lookup "quote_AAPL"
      ((get noFaults defaultConfig 130000
        (invalidatePattern noFaults
          (set noFaults defaultConfig 0 emptyState "quote_AAPL" (Json.num 1) none)
          "froww")
        "quote_AAPL").1).memory =
      some (Json.obj [("data", Json.num 1), ("timestamp", Json.num 0),
        ("expiresAt", Json.num 120000), ("version", Json.str "1.0.0")]) := by
  exact ⟨rfl, rfl, rfl, rfl⟩

/-- C1 (amended): (a) `get` never returns the data of an invalid entry — any
non-null result is the `data` field of an item that passes the validity check,
under arbitrary fault injection; and (b) whenever the memory tier missed or
held an invalid item for the key while the durable tier holds a parseable
entry that fails the validity check, the fault-free `get` removes the entry
from both tiers (an invalid memory-only orphan, reachable only through
prefix-overlapping pattern invalidation, and an invalid durable entry shadowed
by a still-valid memory entry are the exceptions the counterexample forces). -/
theorem get_never_serves_invalid :
    (∀ (f : Faults) (cfg : CacheConfig) (now : Int) (s : CacheState) (key : String),
      (get f cfg now s key).2 ≠ Json.null →
      ∃ item, isValidCacheItem cfg now item = some true ∧
        (get f cfg now s key).2 = (jget item "data").getD Json.null) ∧
    (∀ (cfg : CacheConfig) (now : Int) (s : CacheState) (key : String) (j : Json),
      MemMissOrInvalid cfg now s key →
      List.lookup (CACHE_PREFIX_STR ++ key) s.storage = some (StoredVal.json j) →
      isValidCacheItem cfg now j = some false →
      List.lookup key ((get noFaults cfg now s key).1).memory = none ∧
      List.lookup (CACHE_PREFIX_STR ++ key)
        ((get noFaults cfg now s key).1).storage = none) := by
  constructor
  · intro f cfg now s key hne
    cases hmem : List.lookup key s.memory with
    | none => exact get_serves_aux f cfg now s key (Or.inl hmem) hne
    | some it =>
      cases hv : isValidCacheItem cfg now it with
      | none =>
        rw [get_memNullThrow f cfg now s key it hmem hv] at hne
        exact absurd rfl hne
      | some b =>
        cases b with
        | true =>
          rw [get_memHit f cfg now s key it hmem hv]
          exact ⟨it, hv, rfl⟩
        | false => exact get_serves_aux f cfg now s key (Or.inr ⟨it, hmem, hv⟩) hne
  · intro cfg now s key j hmm hstor hv
    rw [get_evict noFaults cfg now s key j hmm (noFaults_getItem _) hstor hv]
    constructor
    · rw [remove_memory_lookup]
      simp
    · rw [remove_storage_lookup]
      simp

/-- C1 (witness): the eviction half applied at a concrete state whose durable
tier holds an expired entry under `froww_cache_k` and whose memory tier is
empty: the access clears both tiers. -/
theorem get_never_serves_invalid_witness :
    List.lookup "k"
      ((get noFaults defaultConfig 200
        ⟨[], [("froww_cache_k", StoredVal.json (Json.obj [("data", Json.num 1),
          ("timestamp", Json.num 0), ("expiresAt", Json.num 100),
          ("version", Json.str "1.0.0")]))]⟩ "k").1).memory = none ∧
    List.lookup "froww_cache_k"
      ((get noFaults defaultConfig 200
        ⟨[], [("froww_cache_k", StoredVal.json (Json.obj [("data", Json.num 1),
          ("timestamp", Json.num 0), ("expiresAt", Json.num 100),
          ("version", Json.str "1.0.0")]))]⟩ "k").1).storage = none :=
  get_never_serves_invalid.2 defaultConfig 200
    ⟨[], [("froww_cache_k", StoredVal.json (Json.obj [("data", Json.num 1),
      ("timestamp", Json.num 0), ("expiresAt", Json.num 100),
      ("version", Json.str "1.0.0")]))]⟩ "k"
    (Json.obj [("data", Json.num 1), ("timestamp", Json.num 0),
      ("expiresAt", Json.num 100), ("version", Json.str "1.0.0")])
    (Or.inl rfl) rfl rfl

/-- C4: no cache operation propagates a durable-tier failure to its caller.
Each public method wraps its body in a `catch` that swallows the error with
the already-performed effects standing, embedded here as total functions whose
fault-branch results are: a faulted (or unparsable) durable read inside `get`
yields a miss (`null`) with the state unchanged; `set` under any faults still
installs the memory entry; `remove` under any faults still clears the memory
entry; `clear` under any faults still wipes the memory tier; `cleanExpired`,
`invalidatePattern` and `getStats` under a faulted key enumeration leave the
state unchanged and return their fallback results. -/
theorem cache_ops_no_throw :
    (∀ (f : Faults) (cfg : CacheConfig) (now : Int) (s : CacheState) (key : String),
      List.lookup key s.memory = none →
      f.getItemFails (CACHE_PREFIX_STR ++ key) = true →
      get f cfg now s key = (s, Json.null)) ∧
    (∀ (f : Faults) (cfg : CacheConfig) (now : Int) (s : CacheState)
        (key : String) (len : Nat),
      List.lookup key s.memory = none →
      f.getItemFails (CACHE_PREFIX_STR ++ key) = false →
      List.lookup (CACHE_PREFIX_STR ++ key) s.storage =
        some (StoredVal.unparsable len) →
      get f cfg now s key = (s, Json.null)) ∧
    (∀ (f : Faults) (cfg : CacheConfig) (now : Int) (s : CacheState)
        (key : String) (d : Json) (ttlOpt : Option Int),
      List.lookup key (set f cfg now s key d ttlOpt).memory =
        some (mkCacheItem cfg now
          (now + resolveTTL cfg key ttlOpt * 60 * 1000) d)) ∧
    (∀ (f : Faults) (s : CacheState) (key : String),
      List.lookup key (remove f s key).memory = none) ∧
    (∀ (f : Faults) (s : CacheState), (clear f s).memory = []) ∧
    (∀ (f : Faults) (cfg : CacheConfig) (now : Int) (s : CacheState),
      f.getAllKeysFails = true → cleanExpired f cfg now s = s) ∧
    (∀ (f : Faults) (s : CacheState) (pat : String),
      f.getAllKeysFails = true → invalidatePattern f s pat = s) ∧
    (∀ (f : Faults) (now : Int) (s : CacheState),
      f.getAllKeysFails = true → getStats f now s = ⟨0, 0, 0, none, none⟩) := by
  refine ⟨?_, ?_, ?_, ?_, ?_, ?_, ?_, ?_⟩
  · intro f cfg now s key h1 h2
    exact get_fault f cfg now s key (Or.inl h1) h2
  · intro f cfg now s key len h1 h2 h3
    exact get_unparsable f cfg now s key len (Or.inl h1) h2 h3
  · intro f cfg now s key d ttlOpt
    rw [lookup_set_memory]
    simp
  · intro f s key
    rw [remove_memory_lookup]
    simp
  · exact clear_memory_eq
  · intro f cfg now s h
    unfold cleanExpired
    simp [h]
  · intro f s pat h
    unfold invalidatePattern
    simp [h]
  · intro f now s h
    unfold getStats
    simp [h]

/-- C4 (witness): the no-throw degradations applied with every fault flag
raised: a fully faulted durable tier turns `get` into a miss, leaves
`cleanExpired` a no-op, and makes `getStats` return the fallback record. -/
theorem cache_ops_no_throw_witness :
    get ⟨fun _ => true, fun _ => true, fun _ => true, true, true⟩ defaultConfig 0
      emptyState "quote_AAPL" = (emptyState, Json.null) ∧
    cleanExpired ⟨fun _ => true, fun _ => true, fun _ => true, true, true⟩
      defaultConfig 0 emptyState = emptyState ∧
    getStats ⟨fun _ => true, fun _ => true, fun _ => true, true, true⟩ 0
      emptyState = ⟨0, 0, 0, none, none⟩ :=
  ⟨cache_ops_no_throw.1 ⟨fun _ => true, fun _ => true, fun _ => true, true, true⟩
      defaultConfig 0 emptyState "quote_AAPL" rfl rfl,
   cache_ops_no_throw.2.2.2.2.2.1
      ⟨fun _ => true, fun _ => true, fun _ => true, true, true⟩
      defaultConfig 0 emptyState rfl,
   cache_ops_no_throw.2.2.2.2.2.2.2
      ⟨fun _ => true, fun _ => true, fun _ => true, true, true⟩ 0 emptyState rfl⟩

end Froww
